import Mathlib

/-!
# Verification of the duplex-message core

Shallow embedding of the two engines of `src/dist/message-hub.browser.js`:

* the Composie routing trie and middleware composition engine
  (the minified `class e` on line 9: `addMiddleware`, `getMiddlewares`,
  `composeMiddlewares`), and
* the `AbstractHub` correlation engine (the TypeScript part:
  `_buildReqMessage`, `_isResponse`, `_isProgress`, `_emit`, `_onMessage`,
  `_runMsgCallback`, `_normalizeRequest`, `_off`).

Middleware functions are identified by opaque `Nat` tokens; JS objects
keyed by strings are modelled as insertion-ordered key/value sequences,
which is the key-enumeration order `Object.keys` delivers for the
non-integer string keys used here.
-/

namespace DuplexMessage

/-- JS `hay.indexOf(needle) !== -1` for strings: `needle` occurs somewhere
inside `hay` (the empty string occurs in every string). -/
def strContains (hay needle : String) : Bool :=
  (List.range (hay.toList.length + 1)).any fun i =>
    needle.toList.isPrefixOf (hay.toList.drop i)

/-- JS `s.indexOf(k) === 0` for strings: `k` is a leading piece of `s`. -/
def strStartsWith (s k : String) : Bool :=
  k.toList.isPrefixOf s.toList

mutual
/-- A node of the Composie routing trie: `{mdlws: [...], children: {...}}`.
`children` is `none` when the JS node has no `children` property at all
(leaf nodes are created as `{mdlws:[t]}`). -/
inductive Trie : Type where
  | mk (mdlws : List Nat) (children : Option TrieMap)

/-- A JS object holding trie nodes keyed by scope strings, in insertion
order. -/
inductive TrieMap : Type where
  | nil : TrieMap
  | cons (key : String) (node : Trie) (rest : TrieMap) : TrieMap
end

def Trie.mdlws : Trie → List Nat
  | .mk m _ => m

def Trie.children : Trie → Option TrieMap
  | .mk _ c => c

mutual
/-- Number of nodes at or below a node; used only to pick a sufficient
fuel for insertion/lookup loops, which descend one node per step. -/
def Trie.size : Trie → Nat
  | .mk _ none => 1
  | .mk _ (some m) => 1 + m.size

def TrieMap.size : TrieMap → Nat
  | .nil => 0
  | .cons _ node rest => node.size + rest.size
end

def TrieMap.hasKey : TrieMap → String → Bool
  | .nil, _ => false
  | .cons k _ rest, key => k == key || rest.hasKey key

/-- Overwrite the value stored at an existing key, keeping its position. -/
def TrieMap.setExisting : TrieMap → String → Trie → TrieMap
  | .nil, _, _ => .nil
  | .cons k node rest, key, v =>
      if k == key then .cons k v rest else .cons k node (rest.setExisting key v)

/-- Append a fresh key at the end (JS property insertion order). -/
def TrieMap.append : TrieMap → String → Trie → TrieMap
  | .nil, key, v => .cons key v .nil
  | .cons k node rest, key, v => .cons k node (rest.append key v)

/-- JS `s[key] = v`: overwrite in place when the key exists, otherwise
append the new key last. -/
def TrieMap.set (m : TrieMap) (key : String) (v : Trie) : TrieMap :=
  if m.hasKey key then m.setExisting key v else m.append key v

/-- JS `delete s[key]`: drop the key, keeping the order of the others. -/
def TrieMap.del : TrieMap → String → TrieMap
  | .nil, _ => .nil
  | .cons k node rest, key =>
      if k == key then rest else .cons k node (rest.del key)

/-- Outcome of comparing an inserted scope against one existing sibling
key, in the priority order of the scan in `addMiddleware`:
equality (`n=1`), key is a leading piece of scope (`n=2`, descend),
scope is a leading piece of key (`n=3`, restructure). -/
inductive ScanKind : Type where
  | eqK
  | descendK
  | restructK

/-- The three relation tests `addMiddleware` applies to one sibling key
`k` against the inserted scope `e`, in source order:
`o === e`, `e.indexOf(o) === 0`, `o.indexOf(e) === 0`. -/
def classify (scope k : String) : Option ScanKind :=
  if k == scope then some .eqK
  else if strStartsWith scope k then some .descendK
  else if strStartsWith k scope then some .restructK
  else none

/-- The key scan of `addMiddleware`: walk the sibling keys from the last
to the first (`let r=i.length; while(r--)`) and stop at the first key
bearing any of the three relations to the inserted scope. -/
def TrieMap.findMatchRev : TrieMap → String → Option (String × Trie × ScanKind)
  | .nil, _ => none
  | .cons k node rest, scope =>
      match rest.findMatchRev scope with
      | some r => some r
      | none => (classify scope k).map fun kind => (k, node, kind)

/-- One level of `addMiddleware`'s insertion loop, fuelled: the JS
`for(;s;)` loop descends into a child map on the `n=2` case when children
exist; every other case terminates the loop.  The fuel only bounds the
descent depth; the wrapper supplies more fuel than the trie has nodes. -/
def addLevelF : Nat → TrieMap → String → Nat → TrieMap
  | 0, l, _, _ => l
  | fuel + 1, l, scope, f =>
    match l.findMatchRev scope with
    | none => l.set scope (Trie.mk [f] none)
    | some (k, node, .eqK) =>
        l.set k (Trie.mk (node.mdlws ++ [f]) node.children)
    | some (k, node, .descendK) =>
        match node.children with
        | some cs => l.set k (Trie.mk node.mdlws (some (addLevelF fuel cs scope f)))
        | none => l.set k (Trie.mk node.mdlws (some (.cons scope (Trie.mk [f] none) .nil)))
    | some (k, node, .restructK) =>
        (l.del k).set scope (Trie.mk [f] (some (.cons k node .nil)))

/-- `Object.keys` of a trie-node map: the keys in insertion order. -/
def TrieMap.keys : TrieMap → List String
  | .nil => []
  | .cons k _ rest => k :: rest.keys

/-- JS property read `t[key]` on a trie-node map. -/
def TrieMap.getKey? : TrieMap → String → Option Trie
  | .nil, _ => none
  | .cons k node rest, key =>
      if k == key then some node else rest.getKey? key

/-- One level of `getMiddlewares`' lookup loop, fuelled:
`Object.keys(t).find(k => channel.indexOf(k) !== -1)` picks the first
key in insertion order occurring inside the channel string; the loop
appends `t[k].mdlws` and continues into `t[k].children`, stopping when no
key matches or the node has no children.  The impossible read of a key
`find` did not deliver yields the empty list. -/
def getLevelF : Nat → TrieMap → String → List Nat
  | 0, _, _ => []
  | fuel + 1, l, ch =>
    match l.keys.find? (fun k => strContains ch k) with
    | none => []
    | some k =>
        match l.getKey? k with
        | none => []
        | some node =>
            node.mdlws ++
              (match node.children with
               | none => []
               | some cs => getLevelF fuel cs ch)

/-- The Composie middleware store.  In JS, `this.middlewares` is either a
flat map of user scopes (no wildcard inserted yet) or the single entry
`{wildcardKey: {mdlws, children}}` whose children hold the user scopes;
`wcMdlws` is the wildcard node's list when it exists and `top` is the map
all non-wildcard insertion and lookup walks over in either shape. -/
structure Composie where
  wcMdlws : Option (List Nat)
  top : TrieMap

def Composie.empty : Composie := ⟨none, .nil⟩

/-- `addMiddleware` for a non-wildcard scope: run the insertion loop over
the top-level map (the wildcard's children when a wildcard node exists). -/
def Composie.addMiddleware (c : Composie) (scope : String) (f : Nat) : Composie :=
  { c with top := addLevelF (c.top.size + 1) c.top scope f }

/-- `addMiddleware` when the scope is the wildcard key: push onto the
wildcard node's own list, creating the node (and re-rooting the old map
as its children) the first time. -/
def Composie.addWildcard (c : Composie) (f : Nat) : Composie :=
  match c.wcMdlws with
  | some m => { c with wcMdlws := some (m ++ [f]) }
  | none => { wcMdlws := some [f], top := c.top }

/-- `getMiddlewares(channel)`: the wildcard node's list is collected
unconditionally first, then the lookup loop walks the map. -/
def Composie.getMiddlewares (c : Composie) (channel : String) : List Nat :=
  (match c.wcMdlws with
   | some m => m
   | none => []) ++ getLevelF (c.top.size + 1) c.top channel

/-!
## Composition engine (`composeMiddlewares`)

`composeMiddlewares(e)` returns `function(t,s){let i=-1; return function
r(n){if(n<=i) return Promise.reject(new Error("next() called multiple
times")); i=n; let o=e[n]; n===e.length&&(o=s); if(!o) return
Promise.resolve(); try{return Promise.resolve(o(t,r.bind(null,n+1)))}
catch(e){return Promise.reject(e)}}(0)}`.

A handler receives the continuation already bound to `n+1`; what the
engine observes of a handler is only whether and how often it invokes
that continuation, or a throw.  That observable behaviour is captured by
`MWAction`; a chain run is then a pure function of the action list, the
terminal handler and the chain-local index `i` — it reads or writes no
other state.
-/

/-- A handler's observable behaviour toward its bound continuation:
return without calling it, call it once and return its result, call it
sequentially twice (returning the second result when the first call
succeeds, as `await next(); await next()` would), or throw. -/
inductive MWAction : Type where
  | finish
  | callNext
  | callNextTwice
  | throwErr (e : String)
deriving DecidableEq

/-- The message of the error rejected on a re-invoked continuation. -/
def nextErrMsg : String := "next() called multiple times"

/-- The slot lookup `let o = e[n]; n === e.length && (o = s)`. -/
def slotAt (hs : List MWAction) (term : Option MWAction) (n : Nat) :
    Option MWAction :=
  match hs[n]? with
  | some a => some a
  | none => if n = hs.length then term else none

/-- The dispatch closure `r(n)`, fuelled: `i` is the closed-over index
and `n` the argument.  The `n <= i` guard rejects before anything else;
otherwise `i` becomes `n` and the handler in slot `n` runs (an empty
slot resolves; a throw rejects).  The fuel only bounds the call depth,
which the entry point `runChain` supplies in excess. -/
def dispatchF (hs : List MWAction) (term : Option MWAction) :
    (fuel : Nat) → (i : Int) → (n : Nat) → Except String Unit × Int
  | fuel, i, n =>
    if (n : Int) ≤ i then (.error nextErrMsg, i)
    else
      match fuel with
      | 0 => (.ok (), (n : Int))
      | f + 1 =>
        match slotAt hs term n with
        | none => (.ok (), (n : Int))
        | some .finish => (.ok (), (n : Int))
        | some (.throwErr e) => (.error e, (n : Int))
        | some .callNext => dispatchF hs term f (n : Int) (n + 1)
        | some .callNextTwice =>
          match dispatchF hs term f (n : Int) (n + 1) with
          | (.error e, i1) => (.error e, i1)
          | (.ok _, i1) => dispatchF hs term f i1 (n + 1)

/-- A whole chain run: `i` starts at `-1` and the chain is entered with
`r(0)`. -/
def runChain (hs : List MWAction) (term : Option MWAction) :
    Except String Unit × Int :=
  dispatchF hs term (hs.length + 2) (-1) 0

/-!
## Correlation engine (`AbstractHub`)

The TypeScript half of the source.  JS values appearing in message
payloads are modelled by `JVal`; a function value carried in a payload
(an `onprogress` callback) is an opaque `ProgSink` token, and invoking it
is recorded as a `HubEvent` rather than executed.  Settling the promise
returned by `_emit` (calling the closure's `resolve` or `reject`) is
likewise recorded as a `HubEvent`.  Registered handler functions are
modelled as `Fn`, a function from the argument list to a result or a
thrown value.
-/

/-- An `onprogress` function value: one supplied by the caller of
`_emit`, or the relay closure `_onMessage` installs on an inbound
request's first argument. -/
inductive ProgSink : Type where
  | user (id : Nat)
  | relay
deriving DecidableEq

/-- A JS value in a message payload.  An object tracks its ordinary
fields and, separately, whether an `onprogress` function sits on it. -/
inductive JVal : Type where
  | undef
  | jnull
  | jbool (b : Bool)
  | jnum (n : Int)
  | jstr (s : String)
  | jobj (fields : List (String × JVal)) (onprogress : Option ProgSink)

/-- JS truthiness of a `JVal` (objects are always truthy). -/
def truthy : JVal → Bool
  | .undef => false
  | .jnull => false
  | .jbool b => b
  | .jnum n => n != 0
  | .jstr s => s != ""
  | .jobj _ _ => true

/-- JS truthiness of a possibly-absent string field. -/
def optTruthy : Option String → Bool
  | none => false
  | some s => s != ""

/-- `IRequest`: `toInstance` is optional and `_buildReqMessage` leaves it
absent; `progress` is absent (`false`) unless `_normalizeRequest` sets
it. -/
structure Request where
  fromInstance : String
  toInstance : Option String
  messageID : Nat
  methodName : String
  args : List JVal
  progress : Bool

/-- `IResponse`. -/
structure Response where
  fromInstance : String
  toInstance : String
  messageID : Nat
  isSuccess : Bool
  data : JVal

/-- `IProgress`. -/
structure Progress where
  fromInstance : String
  toInstance : String
  messageID : Nat
  data : JVal

/-- An inbound envelope; the variant plays the role of the `type` tag. -/
inductive Msg : Type where
  | req (r : Request)
  | resp (r : Response)
  | prog (p : Progress)

/-- The hub state the embedded operations touch: `instanceID` and the
`_messageID` counter (initially `0`). -/
structure HubState where
  instanceID : String
  messageID : Nat

/-- `_buildReqMessage` (for a string method name): the counter is
pre-incremented and the new value carried as `messageID`. -/
def buildReqMessage (st : HubState) (methodName : String) (args : List JVal) :
    Request × HubState :=
  ({ fromInstance := st.instanceID
     toInstance := none
     messageID := st.messageID + 1
     methodName := methodName
     args := args
     progress := false },
   { st with messageID := st.messageID + 1 })

/-- `_buildRespMessage`. -/
def buildRespMessage (selfID : String) (data : JVal) (reqMsg : Request)
    (isSuccess : Bool) : Response :=
  { fromInstance := selfID
    toInstance := reqMsg.fromInstance
    messageID := reqMsg.messageID
    isSuccess := isSuccess
    data := data }

/-- `_isRequest`: truthy `fromInstance` different from self, `toInstance`
absent (falsy) or naming self, truthy `messageID`, type `request`. -/
def isRequest (selfID : String) (m : Msg) : Bool :=
  match m with
  | .req r =>
      r.fromInstance != "" && r.fromInstance != selfID &&
        (!optTruthy r.toInstance || r.toInstance == some selfID) &&
        r.messageID != 0
  | _ => false

/-- `_isResponse(reqMsg, respMsg)`: the envelope's `toInstance` must name
self and equal the stored request's `fromInstance`, and the `messageID`s
must agree; the envelope's own `fromInstance` is not consulted. -/
def isResponse (selfID : String) (reqMsg : Request) (m : Msg) : Bool :=
  match m with
  | .resp r =>
      r.toInstance == selfID && r.toInstance == reqMsg.fromInstance &&
        r.messageID == reqMsg.messageID
  | _ => false

/-- `_isProgress(reqMsg, respMsg)`: same three checks with type
`progress`. -/
def isProgress (selfID : String) (reqMsg : Request) (m : Msg) : Bool :=
  match m with
  | .prog p =>
      p.toInstance == selfID && p.toInstance == reqMsg.fromInstance &&
        p.messageID == reqMsg.messageID
  | _ => false

/-- `_normalizeRequest(target, msg)`: skipped for the broadcast target
`*`; otherwise, when `args[0]` is truthy and exposes an `onprogress`
function, a copy of the request gains `progress: true` and a copy of
`args[0]` without `onprogress`. -/
def normalizeRequest (target : String) (msg : Request) : Request :=
  if target == "*" then msg
  else
    match msg.args with
    | .jobj fields (some _) :: rest =>
        { msg with progress := true, args := .jobj fields none :: rest }
    | _ => msg

/-- What one `_emit` produces: the advanced hub state, the normalized
request handed to `sendMessage`, and the original request closed over by
the pushed response callback. -/
structure EmitResult where
  newState : HubState
  sent : Request
  pending : Request

/-- `_emit(target, methodName, ...args)`: build a request, send its
normalized form, and register a response callback over the original. -/
def emit (st : HubState) (target : String) (methodName : String)
    (args : List JVal) : EmitResult :=
  let b := buildReqMessage st methodName args
  { newState := b.2, sent := normalizeRequest target b.1, pending := b.1 }

/-- The message IDs of a whole sequence of `_emit` calls, in order. -/
def emitSeq (st : HubState) : List (String × String × List JVal) → List Request
  | [] => []
  | (t, m, a) :: rest =>
      let r := emit st t m a
      r.pending :: emitSeq r.newState rest

/-- The observable effect of one inbound envelope on one pending call:
settling its promise, or invoking an `onprogress` function. -/
inductive HubEvent : Type where
  | resolve (data : JVal)
  | reject (data : JVal)
  | progressCall (sink : ProgSink) (data : JVal)

/-- The response callback `_emit` pushes, closed over the original
request: code `0` when the envelope is neither a matching response nor a
matching progress, `2` for a matching progress (invoking the caller's
`onprogress` when `args[0]` carries one, swallowing its errors), `1` for
a matching response (resolve on `isSuccess`, reject otherwise). -/
def emitCallback (selfID : String) (reqMsg : Request) (m : Msg) :
    Nat × Option HubEvent :=
  if isResponse selfID reqMsg m then
    match m with
    | .resp r => (1, some (if r.isSuccess then .resolve r.data else .reject r.data))
    | _ => (1, none)
  else if isProgress selfID reqMsg m then
    match m with
    | .prog p =>
        (2, match reqMsg.args with
            | .jobj _ (some sink) :: _ => some (.progressCall sink p.data)
            | _ => none)
    | _ => (2, none)
  else (0, none)

/-- The non-request branch of `_onMessage`: `findIndex` runs the pending
response callbacks in registration order up to the first reporting a
match; a match with code `> 1` keeps the entry, otherwise the entry is
spliced out.  Returns the new pending list and the event (if any) of the
matched entry. -/
def handleNonRequest (selfID : String) (cbs : List Request) (m : Msg) :
    List Request × Option (Request × HubEvent) :=
  match cbs.findIdx? (fun r => (emitCallback selfID r m).1 != 0) with
  | none => (cbs, none)
  | some idx =>
    match cbs[idx]? with
    | none => (cbs, none)
    | some r =>
        if 1 < (emitCallback selfID r m).1 then
          (cbs, ((emitCallback selfID r m).2).map fun e => (r, e))
        else
          (cbs.eraseIdx idx, ((emitCallback selfID r m).2).map fun e => (r, e))

/-- A registered handler: a single catch-all function, or a map from
method names to functions. -/
abbrev Fn := List JVal → Except JVal JVal

inductive Handler : Type where
  | fn (f : Fn)
  | hmap (m : List (String × Fn))

/-- The `_eventHandlerMap` array: target/handler pairs in order. -/
abbrev EventHandlerMap := List (String × Handler)

/-- The lookup in `_runMsgCallback`: the pair whose target matches, or
else the first pair when its target is the wildcard `*`. -/
def findTargetHandler (ehm : EventHandlerMap) (target : String) : Option Handler :=
  match ehm.find? (fun p => p.1 == target) with
  | some p => some p.2
  | none =>
    match ehm with
    | p0 :: _ => if p0.1 == "*" then some p0.2 else none
    | [] => none

/-- Method resolution in `_runMsgCallback`: a catch-all function receives
the method name prepended to the arguments (`args.unshift(methodName)`);
a map is indexed by the method name.  `none` when the result is not a
function. -/
def resolveMethod (ehm : EventHandlerMap) (target : String) (req : Request) :
    Option (Fn × List JVal) :=
  match findTargetHandler ehm target with
  | some (.fn f) => some (f, .jstr req.methodName :: req.args)
  | some (.hmap m) =>
      match m.find? (fun p => p.1 == req.methodName) with
      | some p => some (p.2, req.args)
      | none => none
  | none => none

/-- The error thrown when no handler resolves. -/
def noHandlerError (methodName : String) : JVal :=
  .jstr ("[MessageHub] no corresponding handler found for " ++ methodName)

/-- `_runMsgCallback`: run the resolved method and wrap its result in a
success response; wrap a missing handler or a thrown value in a failure
response (the `catch` rethrows the failure response, which `_onMessage`
assigns to `response`). -/
def runMsgCallback (selfID : String) (ehm : EventHandlerMap) (target : String)
    (req : Request) : Response :=
  match resolveMethod ehm target req with
  | none => buildRespMessage selfID (noHandlerError req.methodName) req false
  | some (f, args) =>
      match f args with
      | .ok data => buildRespMessage selfID data req true
      | .error e => buildRespMessage selfID e req false

/-- The relay installation in `_onMessage`: when an inbound request has
`progress` set and a truthy `args[0]`, `args[0].onprogress` is assigned a
closure relaying progress back to the requester.  A class body is
strict-mode code, so when that truthy `args[0]` is a primitive the
assignment throws a TypeError (`.error ()`), which escapes `_onMessage`
before its try/catch; with a falsy `args[0]` or without the `progress`
flag the request passes through unchanged. -/
def installRelay (r : Request) : Except Unit Request :=
  if r.progress then
    match r.args with
    | .jobj fields _ :: rest =>
        .ok { r with args := .jobj fields (some .relay) :: rest }
    | a :: _ => if truthy a then .error () else .ok r
    | [] => .ok r
  else .ok r

/-- `_onMessage(target, msg)`: a non-request envelope goes to the pending
response callbacks; a request gets the progress relay installed, runs
`_runMsgCallback`, and the resulting response (success or failure) is
handed to `sendMessage`.  When the relay installation throws, the
exception propagates out of `_onMessage` before `sendMessage`: nothing is
sent and no state changes.  Returns the new pending list, the
pending-call event (if any) and the outbound response (if any). -/
def onMessage (selfID : String) (ehm : EventHandlerMap) (cbs : List Request)
    (target : String) (m : Msg) :
    List Request × Option (Request × HubEvent) × Option Response :=
  if isRequest selfID m then
    match m with
    | .req r =>
        match installRelay r with
        | .error _ => (cbs, none, none)
        | .ok r2 => (cbs, none, some (runMsgCallback selfID ehm target r2))
    | _ => (cbs, none, none)
  else
    let res := handleNonRequest selfID cbs m
    (res.1, res.2, none)

/-- `_off(target, methodName?)`: no-op when the target has no entry; `if
(!methodName)` — a falsy method name, omitted or the empty string —
splices the whole entry out; with a truthy method name, only an object
registration loses that key (and the entry is spliced out when the map
empties) — a function registration is left untouched. -/
def off (ehm : EventHandlerMap) (target : String) (methodName : Option String) :
    EventHandlerMap :=
  match ehm.findIdx? (fun p => p.1 == target) with
  | none => ehm
  | some i =>
    if !optTruthy methodName then ehm.eraseIdx i
    else
      match methodName, ehm[i]? with
      | some name, some (t, .hmap m) =>
          let m2 := m.filter (fun p => p.1 != name)
          if m2.length == 0 then ehm.eraseIdx i else ehm.set i (t, .hmap m2)
      | _, _ => ehm

/-!
## Spec-side reading of the lookup loop (for the C6 refinement)

The spec describes `getMiddlewares` as: collect the wildcard node's list
unconditionally, then descend level by level, at each level finding a key
contained within the channel (a substring test), appending that node's
list and continuing into its children, stopping when no key matches; the
result is the concatenation in that order.
-/

/-- Modelled from the spec: at one level, "find a key that is contained
within `channel`" together with its node. -/
def TrieMap.specFindSub : TrieMap → String → Option (String × Trie)
  | .nil, _ => none
  | .cons k node rest, ch =>
      if strContains ch k then some (k, node) else rest.specFindSub ch

/-- Modelled from the spec: the per-level lists appended by the descent,
"continue into its children; stop when no key matches". -/
def specLevels : Nat → TrieMap → String → List (List Nat)
  | 0, _, _ => []
  | fuel + 1, l, ch =>
    match l.specFindSub ch with
    | none => []
    | some (_, node) =>
        node.mdlws ::
          (match node.children with
           | none => []
           | some cs => specLevels fuel cs ch)

/-- Modelled from the spec: "collect the wildcard node's list
unconditionally", then "the concatenated ordered sequence" of the
per-level lists. -/
def specGetMiddlewares (c : Composie) (channel : String) : List Nat :=
  (match c.wcMdlws with
   | some m => m
   | none => []) ++ (specLevels (c.top.size + 1) c.top channel).flatten

/-!
## Hub lemmas and claim theorems
-/

/-- A sample request as built by `_emit` on hub "A" (first message). -/
def reqFromA : Request :=
  { fromInstance := "A", toInstance := none, messageID := 1, methodName := "m",
    args := [], progress := false }

/-- A second pending request on hub "A" that would accept the same
response envelope as `reqFromA`. -/
def reqFromA2 : Request :=
  { fromInstance := "A", toInstance := none, messageID := 1, methodName := "m2",
    args := [], progress := false }

/-- A pending request on hub "A" whose first argument carries a caller
`onprogress` function. -/
def reqWithSink : Request :=
  { fromInstance := "A", toInstance := none, messageID := 1, methodName := "m",
    args := [.jobj [] (some (.user 7))], progress := false }


/-- One-step unfolding of `dispatchF`, for rewriting. -/
theorem dispatchF_unfold (hs : List MWAction) (term : Option MWAction)
    (fuel : Nat) (i : Int) (n : Nat) :
    dispatchF hs term fuel i n =
      if (n : Int) ≤ i then (.error nextErrMsg, i)
      else
        match fuel with
        | 0 => (.ok (), (n : Int))
        | f + 1 =>
          match slotAt hs term n with
          | none => (.ok (), (n : Int))
          | some .finish => (.ok (), (n : Int))
          | some (.throwErr e) => (.error e, (n : Int))
          | some .callNext => dispatchF hs term f (n : Int) (n + 1)
          | some .callNextTwice =>
            match dispatchF hs term f (n : Int) (n + 1) with
            | (.error e, i1) => (.error e, i1)
            | (.ok _, i1) => dispatchF hs term f i1 (n + 1) := by
  cases fuel <;> rfl

/-- Unfolding of `dispatchF` at positive fuel, for rewriting. -/
theorem dispatchF_succ (hs : List MWAction) (term : Option MWAction)
    (f : Nat) (i : Int) (n : Nat) :
    dispatchF hs term (f + 1) i n =
      if (n : Int) ≤ i then (.error nextErrMsg, i)
      else
        match slotAt hs term n with
        | none => (.ok (), (n : Int))
        | some .finish => (.ok (), (n : Int))
        | some (.throwErr e) => (.error e, (n : Int))
        | some .callNext => dispatchF hs term f (n : Int) (n + 1)
        | some .callNextTwice =>
          match dispatchF hs term f (n : Int) (n + 1) with
          | (.error e, i1) => (.error e, i1)
          | (.ok _, i1) => dispatchF hs term f i1 (n + 1) := rfl


/-- A run over handlers that each invoke their continuation exactly once
(with no terminal handler) completes successfully, leaving the index at
the chain length. -/
theorem dispatch_ok_of_callNext (fuel : Nat) :
    ∀ (hs : List MWAction) (i : Int) (n : Nat),
      (∀ m, n ≤ m → (hm : m < hs.length) → hs[m] = MWAction.callNext) →
      i < (n : Int) → n ≤ hs.length → hs.length + 1 ≤ fuel + n →
      dispatchF hs none fuel i n = (.ok (), (hs.length : Int)) := by
  induction fuel with
  | zero =>
    intro hs i n _ _ hle hfuel
    omega
  | succ f ih =>
    intro hs i n hcn hlt hle hfuel
    rw [dispatchF_succ, if_neg (by omega)]
    rcases Nat.lt_or_ge n hs.length with hn | hn
    · have hslot : slotAt hs none n = some MWAction.callNext := by
        rw [slotAt, List.getElem?_eq_getElem hn, hcn n le_rfl hn]
      rw [hslot]
      have := ih hs (n : Int) (n + 1)
        (fun m hm hmlt => hcn m (by omega) hmlt) (by omega) (by omega) (by omega)
      exact this
    · have hn' : n = hs.length := le_antisymm hle hn
      have hslot : slotAt hs none n = none := by
        rw [slotAt, List.getElem?_eq_none (by omega)]
        simp [hn']
      rw [hslot, hn']

/-- Entering a chain at or before a handler that calls its continuation
twice — all handlers up to it calling theirs exactly once, all after it
likewise — rejects the run with the "next() called multiple times"
error. -/
theorem dispatch_err_of_callNextTwice (fuel : Nat) :
    ∀ (pre post : List MWAction) (i : Int) (n : Nat),
      (∀ a ∈ pre, a = MWAction.callNext) →
      (∀ a ∈ post, a = MWAction.callNext) →
      i < (n : Int) → n ≤ pre.length →
      (pre ++ MWAction.callNextTwice :: post).length + 2 ≤ fuel + n →
      (dispatchF (pre ++ MWAction.callNextTwice :: post) none fuel i n).1 =
        .error nextErrMsg := by
  induction fuel with
  | zero =>
    intro pre post i n _ _ _ hle hfuel
    simp only [List.length_append, List.length_cons] at hfuel
    omega
  | succ f ih =>
    intro pre post i n hpre hpost hlt hle hfuel
    have hlen : (pre ++ MWAction.callNextTwice :: post).length =
        pre.length + post.length + 1 := by
      simp only [List.length_append, List.length_cons]
      omega
    rw [dispatchF_succ, if_neg (by omega)]
    rcases Nat.lt_or_ge n pre.length with hn | hn
    · have hnlt : n < (pre ++ MWAction.callNextTwice :: post).length := by omega
      have hslot : slotAt (pre ++ MWAction.callNextTwice :: post) none n =
          some MWAction.callNext := by
        rw [slotAt, List.getElem?_eq_getElem hnlt]
        have heq : (pre ++ MWAction.callNextTwice :: post)[n] = pre[n] :=
          List.getElem_append_left hn
        rw [heq, hpre _ (List.getElem_mem hn)]
      rw [hslot]
      exact ih pre post (n : Int) (n + 1) hpre hpost (by omega) (by omega) (by omega)
    · have hn' : n = pre.length := le_antisymm hle hn
      have hnlt : n < (pre ++ MWAction.callNextTwice :: post).length := by omega
      have hslot : slotAt (pre ++ MWAction.callNextTwice :: post) none n =
          some MWAction.callNextTwice := by
        rw [slotAt, List.getElem?_eq_getElem hnlt]
        have hbound0 : n - pre.length < (MWAction.callNextTwice :: post).length := by
          simp only [List.length_cons]
          omega
        have heq : (pre ++ MWAction.callNextTwice :: post)[n] =
            (MWAction.callNextTwice :: post)[n - pre.length] :=
          List.getElem_append_right (by omega)
        rw [heq]
        simp [hn']
      rw [hslot]
      have hfirst : dispatchF (pre ++ MWAction.callNextTwice :: post) none f
          (n : Int) (n + 1) =
          (.ok (), ((pre ++ MWAction.callNextTwice :: post).length : Int)) := by
        apply dispatch_ok_of_callNext f (pre ++ MWAction.callNextTwice :: post)
          (n : Int) (n + 1)
        · intro m hm hmlt
          have hm' : pre.length < m := by omega
          have hbound : m - pre.length < (MWAction.callNextTwice :: post).length := by
            simp only [List.length_cons]
            omega
          have e1 : (pre ++ MWAction.callNextTwice :: post)[m] =
              (MWAction.callNextTwice :: post)[m - pre.length] :=
            List.getElem_append_right (by omega)
          obtain ⟨j, hj⟩ : ∃ j, m - pre.length = j + 1 :=
            ⟨m - pre.length - 1, by omega⟩
          have hjlt : j < post.length := by omega
          have e2 : (MWAction.callNextTwice :: post)[m - pre.length] = post[j] := by
            simp only [hj, List.getElem_cons_succ]
          rw [e1, e2]
          exact hpost _ (List.getElem_mem hjlt)
        · omega
        · omega
        · omega
      rw [hfirst]
      have hsecond : dispatchF (pre ++ MWAction.callNextTwice :: post) none f
          (((pre ++ MWAction.callNextTwice :: post).length : Nat) : Int) (n + 1) =
          (.error nextErrMsg,
            (((pre ++ MWAction.callNextTwice :: post).length : Nat) : Int)) := by
        have hguard : ((n + 1 : Nat) : Int) ≤
            (((pre ++ MWAction.callNextTwice :: post).length : Nat) : Int) := by
          omega
        rw [dispatchF_unfold, if_pos hguard]
      show (dispatchF (pre ++ MWAction.callNextTwice :: post) none f
          (((pre ++ MWAction.callNextTwice :: post).length : Nat) : Int) (n + 1)).1 =
        Except.error nextErrMsg
      rw [hsecond]

/-- C4: the composition engine's index starts at `-1` (see `runChain`);
invoking the continuation `r(n)` with `n <= i` rejects at once with the
"next() called multiple times" error, whatever the chain and terminal
handler; and a chain whose handlers each call their continuation once
except for one that calls it twice rejects the whole enclosing run with
that error.  The run is a pure function of the chain and its own index:
no other hub state is read or written. -/
theorem c4_continuation_reinvocation_rejects
    (hs pre post : List MWAction) (term : Option MWAction)
    (hpre : ∀ a ∈ pre, a = MWAction.callNext)
    (hpost : ∀ a ∈ post, a = MWAction.callNext) :
    (∀ (fuel : Nat) (i : Int) (n : Nat), (n : Int) ≤ i →
        dispatchF hs term fuel i n = (.error nextErrMsg, i)) ∧
    (runChain (pre ++ MWAction.callNextTwice :: post) none).1 =
      .error nextErrMsg := by
  constructor
  · intro fuel i n h
    rw [dispatchF_unfold, if_pos h]
  · exact dispatch_err_of_callNextTwice
      ((pre ++ MWAction.callNextTwice :: post).length + 2) pre post (-1) 0
      hpre hpost (by omega) (by omega) (by omega)

/-- Witness for C4 at a concrete chain `[callNext, callNextTwice]`:
the guard applied at `n = 1`, `i = 2`, and the whole run rejecting. -/
theorem c4_witness :
    dispatchF [MWAction.callNext, MWAction.callNextTwice] none 4 2 1 =
      (.error nextErrMsg, 2) ∧
    (runChain [MWAction.callNext, MWAction.callNextTwice] none).1 =
      .error nextErrMsg := by
  have h := c4_continuation_reinvocation_rejects
    [MWAction.callNext, MWAction.callNextTwice] [MWAction.callNext] [] none
    (by decide) (by decide)
  exact ⟨h.1 4 2 1 (by norm_num), h.2⟩


/-- The key-then-index selection the code performs at one lookup level
agrees with picking the first key/node pair whose key occurs inside the
channel. -/
theorem find_key_index_eq_specFindSub :
    ∀ (l : TrieMap) (ch : String),
    (l.keys.find? (fun key => strContains ch key)).bind
      (fun key => (l.getKey? key).map fun node => (key, node)) = l.specFindSub ch
  | .nil, _ => rfl
  | .cons k node rest, ch => by
    have ih := find_key_index_eq_specFindSub rest ch
    by_cases h : strContains ch k = true
    · simp [TrieMap.keys, TrieMap.getKey?, TrieMap.specFindSub, h]
    · have hfind :
          (TrieMap.cons k node rest).keys.find? (fun key => strContains ch key) =
            rest.keys.find? (fun key => strContains ch key) := by
        simp [TrieMap.keys, h]
      have hspec : (TrieMap.cons k node rest).specFindSub ch = rest.specFindSub ch := by
        simp [TrieMap.specFindSub, h]
      rw [hfind, hspec, ← ih]
      cases hr : rest.keys.find? (fun key => strContains ch key) with
      | none => rfl
      | some k2 =>
        have hk2 : strContains ch k2 = true := List.find?_some hr
        have hne : k ≠ k2 := by
          intro hb
          rw [hb] at h
          exact h hk2
        simp [TrieMap.getKey?, hne]

/-- The code's lookup loop is the flattening of the spec's per-level
lists, at every fuel. -/
theorem getLevelF_eq_specLevels_flatten (fuel : Nat) (l : TrieMap) (ch : String) :
    getLevelF fuel l ch = (specLevels fuel l ch).flatten := by
  induction fuel generalizing l with
  | zero => rfl
  | succ n ih =>
    have hsel := find_key_index_eq_specFindSub l ch
    cases hfind : l.keys.find? (fun key => strContains ch key) with
    | none =>
      rw [hfind, Option.none_bind] at hsel
      simp [getLevelF, specLevels, hfind, ← hsel]
    | some k =>
      rw [hfind, Option.some_bind] at hsel
      cases hget : l.getKey? k with
      | none =>
        rw [hget, Option.map_none'] at hsel
        simp [getLevelF, specLevels, hfind, hget, ← hsel]
      | some node =>
        rw [hget, Option.map_some'] at hsel
        cases node with
        | mk m children =>
          cases children with
          | none =>
            simp [getLevelF, specLevels, hfind, hget, ← hsel, Trie.children, Trie.mdlws]
          | some cs =>
            simp [getLevelF, specLevels, hfind, hget, ← hsel, Trie.children, Trie.mdlws, ih]

/-- C6: for every trie state and every channel string, `getMiddlewares`
returns the wildcard node's list first, followed by the concatenation of
the per-level lists collected by descending the trie, each level selected
by a key occurring anywhere inside the channel (a substring test, not a
leading-piece test), stopping when no key matches. -/
theorem c6_getMiddlewares_is_spec_descent (c : Composie) (channel : String) :
    c.getMiddlewares channel = specGetMiddlewares c channel := by
  unfold Composie.getMiddlewares specGetMiddlewares
  rw [getLevelF_eq_specLevels_flatten]

/-- C5: inserting middleware for scopes "a", "ab", "a" (tokens 1, 2, 3,
after wildcard token 0) gives, for `getMiddlewares "abc"`, the same
result as inserting "a", "a", "ab" (tokens 1, 3, 2): the wildcard token
first, then both "a" middlewares in registration order, then the "ab"
middleware. -/
theorem c5_trie_insert_order_insensitive :
    ((((Composie.empty.addWildcard 0).addMiddleware "a" 1).addMiddleware "ab"
          2).addMiddleware "a" 3).getMiddlewares "abc" = [0, 1, 3, 2] ∧
    ((((Composie.empty.addWildcard 0).addMiddleware "a" 1).addMiddleware "a"
          3).addMiddleware "ab" 2).getMiddlewares "abc" = [0, 1, 3, 2] := by
  exact ⟨by decide, by decide⟩


/-- An envelope matching no pending callback leaves the pending list
unchanged and settles nothing (the "unowned message" path). -/
theorem handleNonRequest_no_match (selfID : String) (cbs : List Request) (m : Msg)
    (h : ∀ r ∈ cbs, (emitCallback selfID r m).1 = 0) :
    handleNonRequest selfID cbs m = (cbs, none) := by
  have hfind : cbs.findIdx? (fun r => (emitCallback selfID r m).1 != 0) = none := by
    rw [List.findIdx?_eq_none_iff]
    intro x hx
    simp [h x hx]
  unfold handleNonRequest
  rw [hfind]

/-- `findIndex` over the pending callbacks lands on the first matching
entry. -/
theorem findIdx_first_match (selfID : String) (m : Msg)
    (l1 l2 : List Request) (p : Request)
    (hskip : ∀ r ∈ l1, (emitCallback selfID r m).1 = 0)
    (hp : (emitCallback selfID p m).1 ≠ 0) :
    (l1 ++ p :: l2).findIdx? (fun r => (emitCallback selfID r m).1 != 0) =
      some l1.length := by
  induction l1 with
  | nil =>
    simp [List.findIdx?_cons, hp]
  | cons a rest ih =>
    have ha : (emitCallback selfID a m).1 = 0 := hskip a (by simp)
    have ihr := ih (fun r hr => hskip r (by simp [hr]))
    simp [List.findIdx?_cons, ha, List.findIdx?_succ, ihr]

/-- The effect of one inbound envelope whose first matching pending entry
is `p`: the matched entry's event fires; the entry is kept exactly when
the match code exceeds `1`, spliced out otherwise; everything else is
untouched. -/
theorem handleNonRequest_first_match (selfID : String) (m : Msg)
    (l1 l2 : List Request) (p : Request)
    (hskip : ∀ r ∈ l1, (emitCallback selfID r m).1 = 0)
    (hp : (emitCallback selfID p m).1 ≠ 0) :
    handleNonRequest selfID (l1 ++ p :: l2) m =
      (if 1 < (emitCallback selfID p m).1 then l1 ++ p :: l2 else l1 ++ l2,
        ((emitCallback selfID p m).2).map fun e => (p, e)) := by
  have hfind := findIdx_first_match selfID m l1 l2 p hskip hp
  have hget : (l1 ++ p :: l2)[l1.length]? = some p := by
    rw [List.getElem?_append_right (le_refl _)]
    simp
  have herase : (l1 ++ p :: l2).eraseIdx l1.length = l1 ++ l2 := by
    rw [List.eraseIdx_append_of_length_le (le_refl _)]
    simp
  unfold handleNonRequest
  simp only [hfind, hget, herase]
  split <;> rfl

/-- The message IDs produced by a sequence of `_emit` calls are the
consecutive values following the starting counter. -/
theorem emitSeq_messageIDs (st : HubState)
    (calls : List (String × String × List JVal)) :
    (emitSeq st calls).map Request.messageID =
      List.range' (st.messageID + 1) calls.length := by
  induction calls generalizing st with
  | nil => rfl
  | cons c rest ih =>
    obtain ⟨t, mn, a⟩ := c
    simp [emitSeq, emit, buildReqMessage, List.range'_succ, ih]

/-- C2: across every sequence of `_emit` calls on one hub the outgoing
message IDs (produced by `++this._messageID`) are strictly increasing,
hence pairwise distinct: no message ID is reused within the hub's
lifetime. -/
theorem c2_messageIDs_strictly_increasing (st : HubState)
    (calls : List (String × String × List JVal)) :
    ((emitSeq st calls).map Request.messageID).Pairwise (· < ·) ∧
    ((emitSeq st calls).map Request.messageID).Nodup := by
  rw [emitSeq_messageIDs]
  exact ⟨List.pairwise_lt_range' _ _, List.nodup_range' _ _⟩

/-- C8: for a non-broadcast target whose `args[0]` is an object carrying
an `onprogress` function, the outgoing request gains `progress: true` and
its `args[0]` loses the function (other fields and arguments kept); for
the broadcast target `*`, or when `args[0]` carries no `onprogress`
function, the request is passed through unchanged. -/
theorem c8_normalizeRequest_strips_onprogress (target : String) (msg : Request)
    (fields : List (String × JVal)) (s : ProgSink) (rest : List JVal)
    (hT : target ≠ "*") (hA : msg.args = .jobj fields (some s) :: rest) :
    normalizeRequest target msg =
      { msg with progress := true, args := .jobj fields none :: rest } ∧
    (∀ (t : String) (m2 : Request), t = "*" ∨
        (∀ (fs : List (String × JVal)) (sk : ProgSink) (re : List JVal),
            m2.args ≠ .jobj fs (some sk) :: re) →
      normalizeRequest t m2 = m2) := by
  constructor
  · unfold normalizeRequest
    rw [if_neg (by simpa using hT), hA]
  · intro t m2 h
    unfold normalizeRequest
    rcases h with h | h
    · rw [if_pos (by simpa using h)]
    · by_cases ht : (t == "*") = true
      · rw [if_pos ht]
      · rw [if_neg ht]
        split
        next fs sk re heq => exact absurd heq (h fs sk re)
        next => rfl

/-- Witness for C8: a concrete emit to "peer" with an
`onprogress`-carrying first argument, and an unchanged broadcast emit. -/
theorem c8_witness :
    normalizeRequest "peer" reqWithSink =
      { fromInstance := "A", toInstance := none, messageID := 1, methodName := "m",
        args := [.jobj [] none], progress := true } ∧
    normalizeRequest "*" reqWithSink = reqWithSink := by
  have h := c8_normalizeRequest_strips_onprogress "peer" reqWithSink [] (.user 7) []
    (by decide) rfl
  exact ⟨h.1, h.2 "*" reqWithSink (Or.inl rfl)⟩

/-- C1 as stated is false on the code: hub "A" emits to target "B"
(pending request `reqFromA`), and a response envelope whose
`fromInstance` is "C" — not the target "B" — still settles the pending
call, because `_isResponse` never reads the envelope's `fromInstance`. -/
theorem c1_counterexample :
    (emit ⟨"A", 0⟩ "B" "m" []).pending = reqFromA ∧
    handleNonRequest "A" [reqFromA]
        (.resp { fromInstance := "C", toInstance := "A", messageID := 1,
                 isSuccess := true, data := .jnum 42 }) =
      ([], some (reqFromA, .resolve (.jnum 42))) ∧
    ("C" : String) ≠ "B" := by
  exact ⟨rfl, rfl, by decide⟩

/-- C1 amended: an inbound envelope is matched by a pending call iff its
`toInstance` names the receiving hub, its `toInstance` equals the pending
request's `fromInstance`, and the message IDs agree (with the matching
`type` tag); the envelope's `fromInstance` is not consulted.  An envelope
matching no pending callback settles nothing and leaves the pending list
unchanged. -/
theorem c1_amended_match_condition (selfID : String) (reqMsg : Request) (m : Msg) :
    ((emitCallback selfID reqMsg m).1 ≠ 0 ↔
      (match m with
       | .resp r => r.toInstance = selfID ∧ r.toInstance = reqMsg.fromInstance ∧
           r.messageID = reqMsg.messageID
       | .prog p => p.toInstance = selfID ∧ p.toInstance = reqMsg.fromInstance ∧
           p.messageID = reqMsg.messageID
       | .req _ => False)) ∧
    (∀ cbs : List Request, (∀ r ∈ cbs, (emitCallback selfID r m).1 = 0) →
      handleNonRequest selfID cbs m = (cbs, none)) := by
  constructor
  · cases m with
    | req r => simp [emitCallback, isResponse, isProgress]
    | resp r =>
      simp only [emitCallback, isResponse, isProgress]
      by_cases h : (r.toInstance == selfID && r.toInstance == reqMsg.fromInstance &&
          r.messageID == reqMsg.messageID) = true
      · rw [if_pos h]
        simp only [Bool.and_eq_true, beq_iff_eq] at h
        exact iff_of_true (by simp) ⟨h.1.1, h.1.2, h.2⟩
      · rw [if_neg h]
        simp only [Bool.and_eq_true, beq_iff_eq] at h
        refine iff_of_false (by simp) ?_
        tauto
    | prog p =>
      simp only [emitCallback, isResponse, isProgress]
      by_cases h : (p.toInstance == selfID && p.toInstance == reqMsg.fromInstance &&
          p.messageID == reqMsg.messageID) = true
      · rw [if_pos h]
        simp only [Bool.and_eq_true, beq_iff_eq] at h
        exact iff_of_true (by simp) ⟨h.1.1, h.1.2, h.2⟩
      · rw [if_neg h]
        simp only [Bool.and_eq_true, beq_iff_eq] at h
        refine iff_of_false (by simp) ?_
        tauto
  · exact fun cbs h => handleNonRequest_no_match selfID cbs m h

/-- Witness for C1 (amended): a progress envelope addressed elsewhere
matches no pending callback of hub "A" and is dropped. -/
theorem c1_witness :
    handleNonRequest "A" [reqFromA]
        (.prog { fromInstance := "B", toInstance := "Z", messageID := 9,
                 data := .jnum 0 }) =
      ([reqFromA], none) := by
  refine (c1_amended_match_condition "A" reqFromA _).2 [reqFromA] ?_
  intro r hr
  rw [List.mem_singleton] at hr
  subst hr
  rfl

/-- C3: for a pending call whose request carries a caller `onprogress`
function, a matching progress envelope (first match in the table) fires
that function with the envelope's data and leaves the pending entry in
place; a matching terminal response envelope settles the promise —
resolve on `isSuccess`, reject otherwise — and splices the entry out; and
once no pending entry matches, a further identical response settles
nothing. -/
theorem c3_progress_keeps_response_settles
    (selfID : String) (l1 l2 : List Request) (p : Request)
    (pr : Progress) (rr : Response)
    (fields : List (String × JVal)) (sink : ProgSink) (rest : List JVal)
    (hsink : p.args = .jobj fields (some sink) :: rest)
    (hskipP : ∀ r ∈ l1, (emitCallback selfID r (.prog pr)).1 = 0)
    (hskipR : ∀ r ∈ l1, (emitCallback selfID r (.resp rr)).1 = 0)
    (hp : isProgress selfID p (.prog pr) = true)
    (hr : isResponse selfID p (.resp rr) = true) :
    handleNonRequest selfID (l1 ++ p :: l2) (.prog pr) =
      (l1 ++ p :: l2, some (p, .progressCall sink pr.data)) ∧
    handleNonRequest selfID (l1 ++ p :: l2) (.resp rr) =
      (l1 ++ l2,
        some (p, if rr.isSuccess then .resolve rr.data else .reject rr.data)) ∧
    ((∀ r ∈ l1 ++ l2, (emitCallback selfID r (.resp rr)).1 = 0) →
      handleNonRequest selfID (l1 ++ l2) (.resp rr) = (l1 ++ l2, none)) := by
  have hcodeP : emitCallback selfID p (.prog pr) =
      (2, some (.progressCall sink pr.data)) := by
    simp [emitCallback, isResponse, hp, hsink]
  have hcodeR : emitCallback selfID p (.resp rr) =
      (1, some (if rr.isSuccess then .resolve rr.data else .reject rr.data)) := by
    simp [emitCallback, hr]
  refine ⟨?_, ?_, ?_⟩
  · rw [handleNonRequest_first_match selfID _ l1 l2 p hskipP (by rw [hcodeP]; simp)]
    simp [hcodeP]
  · rw [handleNonRequest_first_match selfID _ l1 l2 p hskipR (by rw [hcodeR]; simp)]
    simp [hcodeR]
  · exact fun h => handleNonRequest_no_match selfID (l1 ++ l2) (.resp rr) h

/-- Witness for C3: hub "A", one pending call with a caller `onprogress`;
a matching progress envelope fires it and keeps the entry; a matching
failure response rejects and empties the table; re-delivering the
response then settles nothing. -/
theorem c3_witness :
    handleNonRequest "A" [reqWithSink]
        (.prog { fromInstance := "B", toInstance := "A", messageID := 1,
                 data := .jnum 5 }) =
      ([reqWithSink], some (reqWithSink, .progressCall (.user 7) (.jnum 5))) ∧
    handleNonRequest "A" [reqWithSink]
        (.resp { fromInstance := "B", toInstance := "A", messageID := 1,
                 isSuccess := false, data := .jstr "boom" }) =
      ([], some (reqWithSink, .reject (.jstr "boom"))) ∧
    handleNonRequest "A" []
        (.resp { fromInstance := "B", toInstance := "A", messageID := 1,
                 isSuccess := false, data := .jstr "boom" }) =
      ([], none) := by
  have h := c3_progress_keeps_response_settles "A" [] [] reqWithSink
    { fromInstance := "B", toInstance := "A", messageID := 1, data := .jnum 5 }
    { fromInstance := "B", toInstance := "A", messageID := 1,
      isSuccess := false, data := .jstr "boom" }
    [] (.user 7) [] rfl (by intro r hr; cases hr) (by intro r hr; cases hr)
    rfl rfl
  exact ⟨h.1, h.2.1, h.2.2 (by intro r hr; cases hr)⟩

/-- C9: an inbound non-request envelope removes at most one pending
entry, and when the first matching entry is a terminal-response match
(code `1`), exactly that entry is spliced out and every other pending
entry — matching or not — survives untouched. -/
theorem c9_at_most_one_settles (selfID : String) (cbs : List Request) (m : Msg) :
    cbs.length ≤ (handleNonRequest selfID cbs m).1.length + 1 ∧
    (∀ (l1 : List Request) (p : Request) (l2 : List Request),
      cbs = l1 ++ p :: l2 →
      (∀ r ∈ l1, (emitCallback selfID r m).1 = 0) →
      (emitCallback selfID p m).1 = 1 →
      handleNonRequest selfID cbs m =
        (l1 ++ l2, ((emitCallback selfID p m).2).map fun e => (p, e))) := by
  constructor
  · unfold handleNonRequest
    cases hfind : cbs.findIdx? (fun r => (emitCallback selfID r m).1 != 0) with
    | none =>
      simp only [hfind]
      show cbs.length ≤ cbs.length + 1
      omega
    | some idx =>
      simp only [hfind]
      cases hget : cbs[idx]? with
      | none =>
        simp only [hget]
        show cbs.length ≤ cbs.length + 1
        omega
      | some r =>
        simp only [hget]
        by_cases hcode : 1 < (emitCallback selfID r m).1
        · rw [if_pos hcode]
          show cbs.length ≤ cbs.length + 1
          omega
        · rw [if_neg hcode]
          show cbs.length ≤ (cbs.eraseIdx idx).length + 1
          rw [List.length_eraseIdx]
          split <;> omega
  · intro l1 p l2 hcbs hskip hcode
    subst hcbs
    rw [handleNonRequest_first_match selfID m l1 l2 p hskip (by rw [hcode]; simp)]
    rw [hcode]
    simp

/-- Witness for C9: two pending calls of hub "A" would both accept the
same response envelope; only the first is settled and removed, the second
survives still pending. -/
theorem c9_witness :
    handleNonRequest "A" [reqFromA, reqFromA2]
        (.resp { fromInstance := "B", toInstance := "A", messageID := 1,
                 isSuccess := true, data := .jnum 3 }) =
      ([reqFromA2], some (reqFromA, .resolve (.jnum 3))) ∧
    (emitCallback "A" reqFromA2
        (.resp { fromInstance := "B", toInstance := "A", messageID := 1,
                 isSuccess := true, data := .jnum 3 })).1 = 1 := by
  have h := (c9_at_most_one_settles "A" [reqFromA, reqFromA2]
      (.resp { fromInstance := "B", toInstance := "A", messageID := 1,
               isSuccess := true, data := .jnum 3 })).2
    [] reqFromA [reqFromA2] rfl (by intro r hr; cases hr) rfl
  exact ⟨h, rfl⟩

/-- A successful relay installation touches only `args[0]`. -/
theorem installRelay_ok_fields {r r2 : Request} (h : installRelay r = .ok r2) :
    r2.fromInstance = r.fromInstance ∧ r2.messageID = r.messageID ∧
    r2.methodName = r.methodName := by
  unfold installRelay at h
  by_cases hp : r.progress = true
  · rw [if_pos hp] at h
    split at h
    · injection h with h2
      subst h2
      exact ⟨rfl, rfl, rfl⟩
    · split at h
      · exact absurd h (by simp)
      · injection h with h2
        subst h2
        exact ⟨rfl, rfl, rfl⟩
    · injection h with h2
      subst h2
      exact ⟨rfl, rfl, rfl⟩
  · rw [if_neg hp] at h
    injection h with h2
    subst h2
    exact ⟨rfl, rfl, rfl⟩

/-- Whether a method resolves depends only on the handler table, the
target and the method name. -/
theorem resolveMethod_none_congr (ehm : EventHandlerMap) (target : String)
    (r r2 : Request) (hmn : r2.methodName = r.methodName)
    (h : resolveMethod ehm target r = none) :
    resolveMethod ehm target r2 = none := by
  unfold resolveMethod at h ⊢
  rw [hmn]
  cases hh : findTargetHandler ehm target with
  | none => rfl
  | some hd =>
    rw [hh] at h
    cases hd with
    | fn f => exact absurd h (by simp)
    | hmap mp =>
      simp only at h ⊢
      cases hfind : mp.find? (fun p => p.1 == r.methodName) with
      | none => rfl
      | some p =>
        rw [hfind] at h
        exact absurd h (by simp)

/-- C7 as stated is false on the code: a request with `progress: true`
and a truthy primitive `args[0]` passes `_isRequest` and resolves no
handler, yet the strict-mode assignment `msg.args[0].onprogress = ...`
throws before `_onMessage` reaches `sendMessage`: no failure response is
sent and the caller's promise stays pending. -/
theorem c7_counterexample :
    isRequest "B"
      (.req { fromInstance := "A", toInstance := none, messageID := 1,
              methodName := "m", args := [.jnum 5], progress := true }) = true ∧
    resolveMethod [] "A"
      { fromInstance := "A", toInstance := none, messageID := 1,
        methodName := "m", args := [.jnum 5], progress := true } = none ∧
    installRelay
      { fromInstance := "A", toInstance := none, messageID := 1,
        methodName := "m", args := [.jnum 5], progress := true } = .error () ∧
    onMessage "B" [] [] "A"
      (.req { fromInstance := "A", toInstance := none, messageID := 1,
              methodName := "m", args := [.jnum 5], progress := true }) =
      ([], none, none) := by
  exact ⟨rfl, rfl, rfl, rfl⟩

/-- C7 amended: an inbound request (valid per `_isRequest`) that no
registration resolves to a handler function still produces an outbound
response — `isSuccess = false`, addressed to the requester with the
request's message ID and carrying the descriptive "no corresponding
handler found" error, so the caller's promise rejects instead of pending
forever — provided the progress-relay installation does not throw (the
request does not carry `progress: true` with a truthy non-object
`args[0]`); in that exceptional case the TypeError escapes `_onMessage`
before `sendMessage` and nothing is sent.  The pending-call table is
untouched either way. -/
theorem c7_missing_handler_still_responds
    (selfID : String) (ehm : EventHandlerMap) (cbs : List Request)
    (target : String) (r r2 : Request)
    (hreq : isRequest selfID (.req r) = true)
    (hrel : installRelay r = .ok r2)
    (hres : resolveMethod ehm target r = none) :
    onMessage selfID ehm cbs target (.req r) =
      (cbs, none,
        some (buildRespMessage selfID (noHandlerError r.methodName) r2 false)) ∧
    (buildRespMessage selfID (noHandlerError r.methodName) r2 false).isSuccess =
      false ∧
    (buildRespMessage selfID (noHandlerError r.methodName) r2 false).toInstance =
      r.fromInstance ∧
    (buildRespMessage selfID (noHandlerError r.methodName) r2 false).messageID =
      r.messageID ∧
    (buildRespMessage selfID (noHandlerError r.methodName) r2 false).data =
      noHandlerError r.methodName := by
  have hmn : r2.methodName = r.methodName := (installRelay_ok_fields hrel).2.2
  have hres2 : resolveMethod ehm target r2 = none :=
    resolveMethod_none_congr ehm target r r2 hmn hres
  refine ⟨?_, rfl, (installRelay_ok_fields hrel).1,
    (installRelay_ok_fields hrel).2.1, rfl⟩
  unfold onMessage
  rw [if_pos hreq]
  show (match installRelay r with
        | .error _ => (cbs, none, none)
        | .ok rr => (cbs, none, some (runMsgCallback selfID ehm target rr))) =
    (cbs, none,
      some (buildRespMessage selfID (noHandlerError r.methodName) r2 false))
  rw [hrel]
  show (cbs, none, some (runMsgCallback selfID ehm target r2)) =
    (cbs, none,
      some (buildRespMessage selfID (noHandlerError r.methodName) r2 false))
  unfold runMsgCallback
  rw [hres2, hmn]

/-- Witness for C7 (amended): hub "B" with an empty handler table
receives a valid request from "A" whose relay installation succeeds; a
failure response addressed back to "A" is sent. -/
theorem c7_witness :
    onMessage "B" [] [] "A" (.req reqFromA) =
      ([], none,
        some { fromInstance := "B", toInstance := "A", messageID := 1,
               isSuccess := false, data := noHandlerError "m" }) := by
  have h := c7_missing_handler_still_responds "B" [] [] "A" reqFromA reqFromA
    rfl rfl rfl
  exact h.1

/-- C10 as stated is false on the code: `_off` tests `if (!methodName)`,
and the empty string is falsy, so `_off("peer", "")` — a call with a
method name supplied — splices the whole catch-all function registration
out instead of being a no-op. -/
theorem c10_counterexample :
    off [("peer", .fn fun _ => .ok (.jnum 1))] "peer" (some "") = [] ∧
    ([("peer", Handler.fn fun _ => .ok (.jnum 1))] : EventHandlerMap) ≠ [] := by
  exact ⟨rfl, by simp⟩

/-- C10 amended: when the registration stored for a target is a single
catch-all function, `_off(target, methodName)` with a truthy (non-empty)
method name is a complete no-op on the handler table; the registration is
removed exactly by a falsy method name — omitted, or the empty string,
both of which take the `if (!methodName)` branch. -/
theorem c10_off_function_registration
    (ehm : EventHandlerMap) (target : String) (f : Fn) (name : String) (i : Nat)
    (hname : name ≠ "")
    (hidx : ehm.findIdx? (fun p => p.1 == target) = some i)
    (hget : ehm[i]? = some (target, .fn f)) :
    off ehm target (some name) = ehm ∧
    off ehm target none = ehm.eraseIdx i ∧
    off ehm target (some "") = ehm.eraseIdx i := by
  refine ⟨?_, ?_, ?_⟩
  · unfold off
    simp only [hidx, hget]
    simp [optTruthy, hname]
  · unfold off
    simp only [hidx]
    simp [optTruthy]
  · unfold off
    simp only [hidx]
    simp [optTruthy]

/-- Witness for C10 (amended): a catch-all function registered for
"peer" survives `_off("peer", "m")` unchanged and is removed both by
`_off("peer")` and by `_off("peer", "")`. -/
theorem c10_witness :
    off [("peer", .fn fun _ => .ok (.jnum 1))] "peer" (some "m") =
      [("peer", .fn fun _ => .ok (.jnum 1))] ∧
    off [("peer", .fn fun _ => .ok (.jnum 1))] "peer" none = [] ∧
    off [("peer", .fn fun _ => .ok (.jnum 1))] "peer" (some "") = [] := by
  have h := c10_off_function_registration
    [("peer", .fn fun _ => .ok (.jnum 1))] "peer" (fun _ => .ok (.jnum 1)) "m" 0
    (by decide) rfl rfl
  exact ⟨h.1, h.2.1, h.2.2⟩

end DuplexMessage
